import Mathlib

/-!
Shallow embedding of src/bm/models/timesnet.py.

Tensors are modelled at two complementary levels, both translated from the
source file:

* a shape level: a tensor shape is a list of dimension sizes, and every
  framework operation used by the source becomes a function returning
  `Option Shape`, `none` exactly where the framework raises (shape
  mismatches, invalid reshapes, empty stacks, ...);
* a value level: tensors are index functions into `ℚ` (or `ℝ` where the
  source computes Fourier transforms), used for claims about values.

Control flow that the verified properties concern (the depth loop of
TimesNet.forward, the dict updates on `inputs`, the optional minute
embedding) is modelled by structurally identical Lean definitions.
-/

namespace Timesnet

/-- A tensor shape: the list of dimension sizes. -/
abbrev Shape : Type := List ℕ

/-- Sequentially apply an option-valued function to a list, failing if any
application fails: models a Python loop whose body may raise. -/
def optList {α β : Type} (f : α → Option β) : List α → Option (List β)
  | [] => some []
  | a :: l =>
    match f a, optList f l with
    | some b, some bl => some (b :: bl)
    | _, _ => none

/-- numpy/torch broadcasting of a single dimension pair. -/
def broadcastDim (a b : ℕ) : Option ℕ :=
  if a = b then some a else if a = 1 then some b else if b = 1 then some a else none

/-- Broadcasting of two shapes given in reverse (right-aligned) order. -/
def broadcastRev : List ℕ → List ℕ → Option (List ℕ)
  | [], s => some s
  | s, [] => some s
  | a :: s, b :: t =>
    match broadcastDim a b, broadcastRev s t with
    | some d, some r => some (d :: r)
    | _, _ => none

/-- numpy/torch broadcasting of two shapes (used for `+` and `*` on tensors). -/
def broadcastShape (s t : Shape) : Option Shape :=
  (broadcastRev s.reverse t.reverse).map List.reverse

/-- Models `x.permute(0, 2, 1)` (also `transpose(1, 2)`) on a rank-3 tensor. -/
def permute021 : Shape → Option Shape
  | [a, b, c] => some [a, c, b]
  | _ => none

/-- Models `x.permute(0, 3, 1, 2)` on a rank-4 tensor (timesnet.py line 206). -/
def permute0312 : Shape → Option Shape
  | [a, b, c, d] => some [a, d, b, c]
  | _ => none

/-- Models `x.permute(0, 2, 3, 1)` on a rank-4 tensor (timesnet.py line 210). -/
def permute0231 : Shape → Option Shape
  | [a, b, c, d] => some [a, c, d, b]
  | _ => none

/-- Models `torch.cat([x, padding], dim=1)` on rank-3 tensors (line 199). -/
def catDim1 : Shape → Shape → Option Shape
  | [b, t, n], [b2, t2, n2] => if b = b2 ∧ n = n2 then some [b, t + t2, n] else none
  | _, _ => none

/-- Models `x.reshape(new)` with fully explicit target sizes: element counts must agree. -/
def reshapeExact (new : Shape) (s : Shape) : Option Shape :=
  if new.prod = s.prod then some new else none

/-- Models `x.reshape(d0, -1, d2)` with one inferred dimension (line 210). -/
def reshapeInfer1 (d0 d2 : ℕ) (s : Shape) : Option Shape :=
  if 0 < d0 * d2 ∧ d0 * d2 ∣ s.prod then some [d0, s.prod / (d0 * d2), d2] else none

/-- Models `x[:, :m, :]` on a rank-3 tensor (line 211): slicing clamps. -/
def sliceDim1 (m : ℕ) : Shape → Option Shape
  | [b, t, n] => some [b, min t m, n]
  | _ => none

/-- Models `x[:, :, :m]` on a rank-3 tensor (lines 291 and 324). -/
def sliceDim2 (m : ℕ) : Shape → Option Shape
  | [b, c, t] => some [b, c, min t m]
  | _ => none

/-- Models `Conv1d(cin, cout, kernel_size=ksize, padding=pad, padding_mode=circular)`
shape rule (stride 1): circular padding requires `pad ≤ t`, and the padded
input must be at least the kernel size. Used by TokenEmbedding (line 35). -/
def conv1dCircShape (cin cout ksize pad : ℕ) : Shape → Option Shape
  | [b, c, t] =>
    if c = cin ∧ pad ≤ t ∧ ksize ≤ t + 2 * pad then some [b, cout, t + 2 * pad + 1 - ksize]
    else none
  | _ => none

/-- Models `Conv2d(cin, cout, kernel_size=ksize, padding=pad)` shape rule (stride 1):
spatial output sizes `h + 2*pad + 1 - ksize` and `w + 2*pad + 1 - ksize`, which
must be at least 1. Used by Inception_Block_V1 (line 138). -/
def conv2dShape (cin cout ksize pad : ℕ) : Shape → Option Shape
  | [b, c, h, w] =>
    if c = cin ∧ ksize ≤ h + 2 * pad ∧ ksize ≤ w + 2 * pad then
      some [b, cout, h + 2 * pad + 1 - ksize, w + 2 * pad + 1 - ksize]
    else none
  | _ => none

/-- Models `torch.stack(res_list, dim=-1)` for a list of equally-shaped tensors:
fails on an empty list (line 212). -/
def stackLast : List Shape → Option Shape
  | [] => none
  | s :: rest => if rest.all (· = s) then some (s ++ [rest.length + 1]) else none

/-- Models `torch.stack(res_list, dim=-1).mean(-1)` (line 154): the mean removes the
stacked dimension again, so the result has the common branch shape. -/
def stackMeanLast : List Shape → Option Shape
  | [] => none
  | s :: rest => if rest.all (· = s) then some s else none

/-- Models `x.mean(-1)` / `torch.sum(x, -1)`: drops the last dimension. -/
def sumLast : Shape → Option Shape
  | [] => none
  | s => some s.dropLast

/-- GELU / dropout are elementwise: shape preserved. -/
def geluShape (s : Shape) : Option Shape := some s

/-- Models `nn.LayerNorm(d)`: the last dimension must equal `d` (line 280, 314). -/
def layerNormShape (d : ℕ) (s : Shape) : Option Shape :=
  if s.getLast? = some d then some s else none

/-- Models `nn.Linear(din, dout)`: the last dimension must equal `din` (line 283, 321). -/
def linearShape (din dout : ℕ) (s : Shape) : Option Shape :=
  match s.getLast? with
  | some d => if d = din then some (s.dropLast ++ [dout]) else none
  | none => none

/-- Models `F.interpolate(x, size)` on a rank-3 tensor (line 326): resamples the last
dimension; the input time axis must be nonempty. -/
def interpolateShape (size : ℕ) : Shape → Option Shape
  | [b, c, t] => if 1 ≤ t then some [b, c, size] else none
  | _ => none

/-- Models `y[0]`: index 0 along dimension 0 removes that dimension (line 326). -/
def index0Shape : Shape → Option Shape
  | d :: rest => if 1 ≤ d then some rest else none
  | [] => none

/-- Inception_Block_V1.forward (lines 150-155): `num_kernels` parallel 2D
convolutions, branch `i` with kernel size `2*i+1` and padding `i`, stacked on a
new last dimension and averaged over it. -/
def inceptionShape (cin cout nk : ℕ) (s : Shape) : Option Shape :=
  (optList (fun i => conv2dShape cin cout (2 * i + 1) i s) (List.range nk)).bind
    stackMeanLast

/-- TokenEmbedding.forward (lines 42-44): permute to channel-first, circular
Conv1d with kernel 3 and padding 1, transpose back. -/
def tokenEmbeddingShape (c_in d_model : ℕ) (s : Shape) : Option Shape :=
  (permute021 s).bind fun sh =>
  (conv1dCircShape c_in d_model 3 1 sh).bind fun sh =>
  permute021 sh

/-- PositionalEmbedding.forward (line 28): `pe[:, :x.size(1)]` where `pe` has
shape `[1, maxLen, d_model]`; slicing clamps at `maxLen`. -/
def positionalEmbeddingShape (d_model maxLen : ℕ) (s : Shape) : Option Shape :=
  match s with
  | [_, t, _] => some [1, min t maxLen, d_model]
  | _ => none

/-- DataEmbedding.forward with `x_mark = None` (lines 122-128): token embedding
plus (broadcast) positional embedding, then dropout (shape preserved). -/
def dataEmbeddingShape (c_in d_model maxLen : ℕ) (s : Shape) : Option Shape :=
  (tokenEmbeddingShape c_in d_model s).bind fun tok =>
  (positionalEmbeddingShape d_model maxLen s).bind fun pos =>
  broadcastShape tok pos

/-- One iteration of the period loop of TimesBlock.forward (lines 193-211) for
a discovered period `p`: optional zero-padding of the time axis to the next
multiple of `p`, reshape to a 2D grid, the Inception pair with GELU between,
reshape back and truncation to the first `seq_len` steps. -/
def timesBlockPeriodShape (seq_len d_model d_ff nk p : ℕ) (s : Shape) : Option Shape :=
  match s with
  | [B, T, N] =>
    let padded : Option (ℕ × Shape) :=
      if seq_len % p ≠ 0 then
        let length := (seq_len / p + 1) * p
        (catDim1 [B, T, N] [B, length - seq_len, N]).map (fun sh => (length, sh))
      else
        some (seq_len, [B, T, N])
    match padded with
    | none => none
    | some (length, sh) =>
      (reshapeExact [B, length / p, p, N] sh).bind fun sh =>
      (permute0312 sh).bind fun sh =>
      (inceptionShape d_model d_ff nk sh).bind fun sh =>
      (geluShape sh).bind fun sh =>
      (inceptionShape d_ff d_model nk sh).bind fun sh =>
      (permute0231 sh).bind fun sh =>
      (reshapeInfer1 B N sh).bind fun sh =>
      sliceDim1 seq_len sh
  | _ => none

/-- TimesBlock.forward (lines 188-220) at shape level. The data-dependent
period list returned by FFT_for_Period enters as the parameter `ps`; its
length is the `k` of the call, and `FFT_for_Period` succeeds exactly when
`k` is at most the number of rfft bins `T/2 + 1` of the block input (the
guard below). `period_weight` then has shape `[B, ps.length]`; it is
softmaxed, unsqueezed twice and repeated to `[B, T, N, k]`, multiplied into
the stack of per-period results, summed over the last axis, and the input is
added as a residual. -/
def timesBlockShape (seq_len d_model d_ff nk : ℕ) (ps : List ℕ) (s : Shape) :
    Option Shape :=
  match s with
  | [B, T, N] =>
    if ps.length ≤ T / 2 + 1 then
      (optList (fun p => timesBlockPeriodShape seq_len d_model d_ff nk p [B, T, N])
          ps).bind fun res =>
      (stackLast res).bind fun stacked =>
      (broadcastShape stacked [B, T, N, ps.length]).bind fun mul =>
      (sumLast mul).bind fun summed =>
      broadcastShape summed [B, T, N]
    else none
  | _ => none

/-- TimesNet.crop_or_pad (lines 285-293) at shape level: right-pad the time
axis with zeros up to `sequence_lenth`, or truncate to its first
`sequence_lenth` steps; also yields the recorded signed `delta`. -/
def cropOrPadShape (seq : ℕ) : Shape → Option (Shape × ℤ)
  | [b, c, t] =>
    let delta : ℤ := (seq : ℤ) - (t : ℤ)
    if t < seq then some ([b, c, t + (seq - t)], delta)
    else if seq < t then some ([b, c, min t seq], delta)
    else some ([b, c, t], delta)
  | _ => none

/-- Configuration record of TimesNet (constructor arguments, lines 224-250);
`c_in` is `in_channels["meg"]` as seen by `enc_embedding` after the optional
merger/subject updates of `__init__`. -/
structure TNConfig where
  c_in : ℕ
  sequence_lenth : ℕ
  num_kernels : ℕ
  top_k : ℕ
  d_model : ℕ
  d_ff : ℕ
  flatten_out_channels : ℕ
  depth : ℕ

/-- Apply an optional collaborator (merger / subject layers) at shape level. -/
def applyOpt (f : Option (Shape → Option Shape)) (s : Shape) : Option Shape :=
  match f with
  | some g => g s
  | none => some s

/-- TimesNet.forward (lines 295-326) at shape level. `periodsOf i` is the
period list FFT_for_Period discovers inside block `i` (all blocks receive the
same embedded input `x`, so only the last block's normalized output survives
the loop, but every iteration must succeed). The source reads `length` from
the first entry of `inputs` (line 298); all inputs share the time length, so
it is read from the meg shape here. GELU and dropout preserve shapes. Returns
the output shape, the recorded `delta`, and whether the interpolation branch
of lines 323-326 was taken. -/
def timesNetForwardShape (cfg : TNConfig)
    (merger subject : Option (Shape → Option Shape))
    (periodsOf : ℕ → List ℕ) (meg : Shape) : Option (Shape × ℤ × Bool) :=
  meg.getLast?.bind fun length =>
  (applyOpt merger meg).bind fun meg1 =>
  (applyOpt subject meg1).bind fun meg2 =>
  (cropOrPadShape cfg.sequence_lenth meg2).bind fun sd =>
  (permute021 sd.1).bind fun x1 =>
  (dataEmbeddingShape cfg.c_in cfg.d_model 5000 x1).bind fun x =>
  (optList (fun i =>
      (timesBlockShape cfg.sequence_lenth cfg.d_model cfg.d_ff cfg.num_kernels
          (periodsOf i) x).bind fun b =>
      layerNormShape cfg.d_model b) (List.range cfg.depth)).bind fun encs =>
  encs.getLast?.bind fun enc =>
  (linearShape cfg.d_model cfg.flatten_out_channels enc).bind fun out1 =>
  (permute021 out1).bind fun out2 =>
  if 0 ≤ sd.2 then
    (sliceDim2 length out2).map (fun o => (o, sd.2, false))
  else
    (interpolateShape length out2).bind fun o =>
    (index0Shape o).map (fun o2 => (o2, sd.2, true))

/-- TimesNet.crop_or_pad (lines 285-293) at value level for an input of time
length `len`: for `len < seq` the result is `F.pad(x, (0, seq - len))`, i.e.
the original values followed by zeros; for `len > seq` it is the slice
`x[:, :, :seq]`; otherwise `x` itself. Positions are (batch, channel, time). -/
def cropOrPadVal (seq len : ℕ) (x : ℕ → ℕ → ℕ → ℚ) : ℕ → ℕ → ℕ → ℚ :=
  if len < seq then fun b c t => if t < len then x b c t else 0
  else fun b c t => x b c t

/-- Models `nn.Conv2d(cin, cout, kernel_size=ksize, padding=pad)` at value level
(stride 1) on an input of spatial size `h × w`: zero padding of width `pad`
around the spatial axes, then the usual correlation sum plus bias. -/
def conv2dVal (cin h w ksize pad : ℕ) (wt : ℕ → ℕ → ℕ → ℕ → ℚ) (bias : ℕ → ℚ)
    (x : ℕ → ℕ → ℕ → ℕ → ℚ) : ℕ → ℕ → ℕ → ℕ → ℚ :=
  fun b o i j => bias o +
    ∑ c ∈ Finset.range cin, ∑ u ∈ Finset.range ksize, ∑ v ∈ Finset.range ksize,
      wt o c u v *
        (if pad ≤ i + u ∧ i + u < h + pad ∧ pad ≤ j + v ∧ j + v < w + pad then
          x b c (i + u - pad) (j + v - pad) else 0)

/-- The `res_list` of Inception_Block_V1.forward (lines 151-153): branch `i`
is a Conv2d with kernel size `2*i+1` and padding `i`, with weights `wts i`
and bias `biases i`. -/
def inceptionBranches (cin h w nk : ℕ) (wts : ℕ → ℕ → ℕ → ℕ → ℕ → ℚ)
    (biases : ℕ → ℕ → ℚ) (x : ℕ → ℕ → ℕ → ℕ → ℚ) : List (ℕ → ℕ → ℕ → ℕ → ℚ) :=
  (List.range nk).map (fun i => conv2dVal cin h w (2 * i + 1) i (wts i) (biases i) x)

/-- Inception_Block_V1.forward (lines 150-155) at value level:
`torch.stack(res_list, dim=-1).mean(-1)` evaluated at one output position is
the sum of the branch values there divided by the number of branches. -/
def inceptionVal (cin h w nk : ℕ) (wts : ℕ → ℕ → ℕ → ℕ → ℕ → ℚ)
    (biases : ℕ → ℕ → ℚ) (x : ℕ → ℕ → ℕ → ℕ → ℚ) : ℕ → ℕ → ℕ → ℕ → ℚ :=
  fun b o i j =>
    ((inceptionBranches cin h w nk wts biases x).map (fun f => f b o i j)).sum /
      ((inceptionBranches cin h w nk wts biases x).length : ℚ)

/-- The batch object of TimesNet.forward: only its `subject_index` field is
read (line 297). -/
structure BatchRec where
  subject_index : ℕ

/-- The caller's `inputs` mapping: the "meg" entry (the only key this model
reads or writes) plus the remaining entries. -/
structure InputsRec (τ : Type) where
  meg : τ
  extra : List (String × τ)

/-- The depth loop of TimesNet.forward (lines 313-314):
`for i in range(depth): enc_out = self.layer_norm(self.model[i](x))`.
Every iteration applies its block to the same `x` and overwrites `enc_out`;
before the loop `enc_out` is unbound, so depth 0 leaves `none` (the Python
code would raise a NameError at line 318). -/
def encLast {τ : Type} (model : List (τ → τ)) (layer_norm : τ → τ) (x : τ) :
    Option τ :=
  model.foldl (fun _ blk => some (layer_norm (blk x))) none

/-- TimesNet.forward (lines 295-326) at control-flow level over an abstract
tensor type `τ`: the merger and subject layers update `inputs.meg` in place
(lines 300-304), the result is built from crop_or_pad, permute, embedding
(always present, with `x_mark = None`), the depth loop, activation, dropout,
projection, permute and length restoration (`restore`, lines 322-326).
Returns the output together with the caller's `inputs` as left behind. -/
def timesNetForwardCtl {τ : Type}
    (merger : Option (τ → BatchRec → τ)) (subject_layers : Option (τ → ℕ → τ))
    (crop_or_pad permuteIn : τ → τ) (enc_embedding : τ → τ)
    (model : List (τ → τ)) (layer_norm act dropout projection permuteOut : τ → τ)
    (restore : τ → τ)
    (inputs : InputsRec τ) (batch : BatchRec) : Option (τ × InputsRec τ) :=
  let subjects := batch.subject_index
  let inputs1 :=
    match merger with
    | some m => { inputs with meg := m inputs.meg batch }
    | none => inputs
  let inputs2 :=
    match subject_layers with
    | some sl => { inputs1 with meg := sl inputs1.meg subjects }
    | none => inputs1
  let x := enc_embedding (permuteIn (crop_or_pad inputs2.meg))
  match encLast model layer_norm x with
  | none => none
  | some enc_out =>
    some (restore (permuteOut (projection (dropout (act enc_out)))), inputs2)

/-- The value the merger / subject-layer preprocessing of TimesNet.forward
(lines 300-304) leaves in the caller's `inputs` under the "meg" key. -/
def megAfterPre {τ : Type} (merger : Option (τ → BatchRec → τ))
    (subject_layers : Option (τ → ℕ → τ)) (batch : BatchRec) (meg : τ) : τ :=
  let meg1 :=
    match merger with
    | some m => m meg batch
    | none => meg
  match subject_layers with
  | some sl => sl meg1 batch.subject_index
  | none => meg1

/-- The `in_channels` updates of TimesNet.__init__ (lines 257-270): if a
merger is configured, `in_channels["meg"] = merger_channels`; if subject
layers are configured, `dim` is chosen from `subject_layers_dim` ("hidden"
selects `hidden["meg"]`, "input" the current meg width, anything else raises
a KeyError) and `in_channels["meg"] = dim`. Returns the mapping the caller is
left with. -/
def megKey : String := "meg"

def hiddenKey : String := "hidden"

/-- The minutely frequency granularity key (lines 79 and 102). -/
def freqT : String := "t"

/-- The secondly frequency granularity key (line 102). -/
def freqS : String := "s"

def timesNetInitChannels (merger : Bool) (merger_channels : ℕ)
    (subject_layers : Bool) (subject_layers_dim : String) (hidden_meg : ℕ)
    (in_channels : String → ℕ) : Option (String → ℕ) :=
  let ch1 := if merger then
      Function.update in_channels megKey merger_channels
    else in_channels
  if subject_layers then
    let meg_dim := ch1 megKey
    let dim : Option ℕ :=
      if subject_layers_dim = "hidden" then some hidden_meg
      else if subject_layers_dim = "input" then some meg_dim
      else none
    dim.map (fun d => Function.update ch1 megKey d)
  else
    some ch1

/-- TemporalEmbedding after construction: the per-field embedding tables.
`minute_embed` is only set for some frequency settings (lines 79-80). -/
structure TemporalEmbeddingM (τ : Type) where
  minute_embed : Option (ℕ → τ)
  hour_embed : ℕ → τ
  weekday_embed : ℕ → τ
  day_embed : ℕ → τ
  month_embed : ℕ → τ

/-- TemporalEmbedding.__init__ (lines 69-84): the minute table is created
exactly when `freq == 't'`; the four other tables are always created. The
table contents (fixed sinusoidal or learned) are irrelevant to the claims and
enter as parameters. -/
def temporalEmbeddingInit {τ : Type} (freq : String)
    (minuteT hourT weekdayT dayT monthT : ℕ → τ) : TemporalEmbeddingM τ :=
  { minute_embed := if freq = "t" then some minuteT else none
    hour_embed := hourT
    weekday_embed := weekdayT
    day_embed := dayT
    month_embed := monthT }

/-- TemporalEmbedding.forward (lines 86-95) at one (batch, time) position:
`row` maps a calendar column index to the field value at that position.
`minute_x` is the minute embedding of column 4 when the table exists and the
scalar 0 otherwise; the result is the sum of the five contributions. -/
def temporalEmbeddingForward {τ : Type} [Add τ] [Zero τ]
    (m : TemporalEmbeddingM τ) (row : ℕ → ℕ) : τ :=
  let minute_x : τ :=
    match m.minute_embed with
    | some e => e (row 4)
    | none => 0
  m.hour_embed (row 3) + m.weekday_embed (row 2) + m.day_embed (row 1) +
    m.month_embed (row 0) + minute_x

/-- The frequency granularities this source file recognises are the keys of
`freq_map` (lines 102-103); among them, minutely 't' and secondly 's' are
finer than hourly 'h' (the remaining keys are hourly or coarser). This
predicate follows the spec's phrase "finer-than-hourly granularity". -/
def finerThanHourly (freq : String) : Bool :=
  freq = "t" ∨ freq = "s"

/-- DataEmbedding.forward (lines 122-128) at control-flow level over an
abstract tensor type `τ`: with `x_mark = None` the result is
`dropout(value_embedding(x) + position_embedding(x))`; otherwise the temporal
embedding of `x_mark` is added between the two terms. -/
def dataEmbeddingForward {τ μ : Type} [Add τ]
    (value_embedding position_embedding : τ → τ) (temporal_embedding : μ → τ)
    (dropout : τ → τ) (x : τ) (x_mark : Option μ) : τ :=
  match x_mark with
  | none => dropout (value_embedding x + position_embedding x)
  | some m => dropout (value_embedding x + temporal_embedding m + position_embedding x)

/-- The running maximum of `torch.topk`'s selection: the entry with the
largest value, the earliest such entry on ties (deterministic). -/
def pickMax {α : Type} [LinearOrder α] : List (ℕ × α) → Option (ℕ × α)
  | [] => none
  | p :: ps => some (ps.foldl (fun best q => if best.2 < q.2 then q else best) p)

/-- Greedy selection of `k` indices of largest value from an indexed list,
removing each selected index before the next round. -/
def topkGo {α : Type} [LinearOrder α] : ℕ → List (ℕ × α) → List ℕ
  | 0, _ => []
  | k + 1, ps =>
    match pickMax ps with
    | none => []
    | some q => q.1 :: topkGo k (ps.filter (fun r => r.1 ≠ q.1))

/-- Models `torch.topk(v, k)` index output on a vector `v` (values sorted
descending, ties resolved deterministically towards the earlier index):
defined only for `k ≤ v.length`, as torch raises otherwise. -/
def topkIdx {α : Type} [LinearOrder α] (v : List α) (k : ℕ) : Option (List ℕ) :=
  if k ≤ v.length then some (topkGo k v.enum) else none

/-- One cell of `torch.fft.rfft(x, dim=1)`: the discrete Fourier transform of
the length-`T` signal `x` at frequency index `f`. -/
noncomputable def rfftCell (T : ℕ) (x : ℕ → ℝ) (f : ℕ) : ℂ :=
  ∑ t ∈ Finset.range T,
    (x t : ℂ) * Complex.exp (-(2 * Real.pi * Complex.I * f * t) / T)

/-- Models `abs(xf)[b, f, c]` for the rfft of a `[B, T, C]` input along dim 1. -/
noncomputable def xfAbs (T : ℕ) (x : ℕ → ℕ → ℕ → ℝ) (b f c : ℕ) : ℝ :=
  Complex.abs (rfftCell T (fun t => x b t c) f)

/-- Models `abs(xf).mean(0).mean(-1)` with `frequency_list[0] = 0` (lines 161-162):
the magnitudes averaged over the batch dimension, then over the channel
dimension, with the DC bin overwritten by zero; one entry per rfft frequency
bin (there are `T/2 + 1` bins). -/
noncomputable def frequency_list (B T C : ℕ) (x : ℕ → ℕ → ℕ → ℝ) : List ℝ :=
  (List.range (T / 2 + 1)).map (fun f =>
    if f = 0 then 0
    else (∑ c ∈ Finset.range C, (∑ b ∈ Finset.range B, xfAbs T x b f c) / B) / C)

/-- FFT_for_Period (lines 157-166): rfft along the time axis, magnitudes
averaged over batch then channels, DC bin zeroed, top-k bin selection,
periods `T // index` (numpy integer division, which yields 0 on index 0, as
Nat division does), and the `[B, k]` matrix `abs(xf).mean(-1)[:, top_list]`
of channel-averaged magnitudes at the selected bins, given row by row. -/
noncomputable def FFT_for_Period (B T C : ℕ) (x : ℕ → ℕ → ℕ → ℝ) (k : ℕ) :
    Option (List ℕ × List (List ℝ)) :=
  match topkIdx (frequency_list B T C x) k with
  | none => none
  | some top_list =>
    some (top_list.map (fun f => T / f),
      (List.range B).map (fun b =>
        top_list.map (fun f => (∑ c ∈ Finset.range C, xfAbs T x b f c) / C)))

/-- The period-discovery contract in the spec's words (section 4.5): average
the magnitude over the batch and channel dimensions into one amplitude per
frequency bin, set the DC bin's averaged amplitude to zero, select the k bins
of largest averaged amplitude, return the periods `T // index` and the
`[B, k]` channel-averaged magnitudes at the selected bins. -/
noncomputable def FFT_for_Period_spec (B T C : ℕ) (x : ℕ → ℕ → ℕ → ℝ) (k : ℕ) :
    Option (List ℕ × List (List ℝ)) :=
  let amplitude : ℕ → ℝ := fun f =>
    if f = 0 then 0
    else (∑ b ∈ Finset.range B, ∑ c ∈ Finset.range C, xfAbs T x b f c) / (B * C)
  match topkIdx ((List.range (T / 2 + 1)).map amplitude) k with
  | none => none
  | some selected =>
    some (selected.map (fun f => T / f),
      (List.range B).map (fun b =>
        selected.map (fun f => (∑ c ∈ Finset.range C, xfAbs T x b f c) / C)))

/-! Helper lemmas. -/

lemma optList_const {α β : Type} (f : α → Option β) (c : β) :
    ∀ l : List α, (∀ a ∈ l, f a = some c) → optList f l = some (l.map fun _ => c)
  | [], _ => rfl
  | a :: l, h => by
    have ha := h a (List.mem_cons_self a l)
    have hl := optList_const f c l (fun x hx => h x (List.mem_cons_of_mem a hx))
    simp only [optList, ha, hl, List.map_cons]

lemma getLast?_map_const {α β : Type} (c : β) :
    ∀ l : List α, l ≠ [] → (l.map fun _ => c).getLast? = some c
  | [], h => absurd rfl h
  | [_], _ => rfl
  | _ :: b :: t, _ => by
    have := getLast?_map_const c (b :: t) (List.cons_ne_nil b t)
    simpa [List.getLast?_cons_cons] using this

lemma broadcastDim_self (a : ℕ) : broadcastDim a a = some a := by
  simp [broadcastDim]

lemma broadcastDim_one_right (a : ℕ) : broadcastDim a 1 = some a := by
  by_cases h : a = 1 <;> simp [broadcastDim, h]

lemma broadcastRev_self : ∀ l : List ℕ, broadcastRev l l = some l
  | [] => rfl
  | a :: t => by
    simp only [broadcastRev, broadcastDim_self, broadcastRev_self t]

lemma broadcastShape_self (s : Shape) : broadcastShape s s = some s := by
  simp [broadcastShape, broadcastRev_self]

lemma broadcastShape_one_left (a s d : ℕ) :
    broadcastShape [a, s, d] [1, s, d] = some [a, s, d] := by
  simp [broadcastShape, broadcastRev, broadcastDim_self, broadcastDim_one_right]

lemma reshapeExact_eq (new s : Shape) (h : new.prod = s.prod) :
    reshapeExact new s = some new := by
  simp [reshapeExact, h]

lemma reshapeInfer1_eq (d0 d2 : ℕ) (s : Shape) (mid : ℕ) (h0 : 0 < d0 * d2)
    (h : s.prod = d0 * d2 * mid) : reshapeInfer1 d0 d2 s = some [d0, mid, d2] := by
  have hdvd : d0 * d2 ∣ s.prod := ⟨mid, h⟩
  have hq : s.prod / (d0 * d2) = mid := by
    rw [h, Nat.mul_div_cancel_left _ h0]
  simp [reshapeInfer1, h0, hdvd, hq]

lemma conv2dShape_eq (cin cout i b h w : ℕ) (hh : 1 ≤ h) (hw : 1 ≤ w) :
    conv2dShape cin cout (2 * i + 1) i [b, cin, h, w] = some [b, cout, h, w] := by
  have c1 : 2 * i + 1 ≤ h + 2 * i := by omega
  have c2 : 2 * i + 1 ≤ w + 2 * i := by omega
  have e1 : h + 2 * i + 1 - (2 * i + 1) = h := by omega
  have e2 : w + 2 * i + 1 - (2 * i + 1) = w := by omega
  simp [conv2dShape, c1, c2, e1, e2]

lemma stackMeanLast_map_const {α : Type} (c : Shape) :
    ∀ l : List α, l ≠ [] → stackMeanLast (l.map fun _ => c) = some c
  | [], h => absurd rfl h
  | _ :: t, _ => by simp [stackMeanLast]

lemma stackLast_map_const {α : Type} (c : Shape) :
    ∀ l : List α, l ≠ [] → stackLast (l.map fun _ => c) = some (c ++ [l.length])
  | [], h => absurd rfl h
  | _ :: t, _ => by simp [stackLast]

lemma sum_map_range (n : ℕ) (f : ℕ → ℚ) :
    ((List.range n).map f).sum = ∑ i ∈ Finset.range n, f i := by
  induction n with
  | zero => simp
  | succ m ih => simp [List.range_succ, Finset.sum_range_succ, ih]

lemma inceptionShape_eq (cin cout nk b h w : ℕ) (hnk : 1 ≤ nk) (hh : 1 ≤ h)
    (hw : 1 ≤ w) : inceptionShape cin cout nk [b, cin, h, w] = some [b, cout, h, w] := by
  have hconv : ∀ i ∈ List.range nk,
      conv2dShape cin cout (2 * i + 1) i [b, cin, h, w] = some [b, cout, h, w] :=
    fun i _ => conv2dShape_eq cin cout i b h w hh hw
  have hne : List.range nk ≠ [] := by
    simp [List.range_eq_nil]; omega
  rw [inceptionShape, optList_const _ _ _ hconv, Option.some_bind,
    stackMeanLast_map_const _ _ hne]

lemma timesBlockChain_eq (seq B dm dff nk p L : ℕ)
    (hdm : 1 ≤ dm) (hB : 1 ≤ B) (hnk : 1 ≤ nk) (hp : 1 ≤ p)
    (hdvd : p ∣ L) (hL : 1 ≤ L) (hseq : seq ≤ L) :
    ((reshapeExact [B, L / p, p, dm] [B, L, dm]).bind fun sh =>
      (permute0312 sh).bind fun sh =>
      (inceptionShape dm dff nk sh).bind fun sh =>
      (geluShape sh).bind fun sh =>
      (inceptionShape dff dm nk sh).bind fun sh =>
      (permute0231 sh).bind fun sh =>
      (reshapeInfer1 B dm sh).bind fun sh =>
      sliceDim1 seq sh) = some [B, seq, dm] := by
  have hp0 : 0 < p := hp
  have hple : p ≤ L := Nat.le_of_dvd hL hdvd
  have hdiv : 1 ≤ L / p := (Nat.one_le_div_iff hp0).mpr hple
  have hmul : L / p * p = L := Nat.div_mul_cancel hdvd
  have hprod : ([B, L / p, p, dm] : Shape).prod = ([B, L, dm] : Shape).prod := by
    simp only [List.prod_cons, List.prod_nil, mul_one]
    rw [← mul_assoc (L / p) p dm, hmul]
  rw [reshapeExact_eq _ _ hprod, Option.some_bind]
  rw [show permute0312 [B, L / p, p, dm] = some [B, dm, L / p, p] from rfl,
    Option.some_bind]
  rw [inceptionShape_eq dm dff nk B (L / p) p hnk hdiv hp, Option.some_bind]
  rw [show geluShape [B, dff, L / p, p] = some [B, dff, L / p, p] from rfl,
    Option.some_bind]
  rw [inceptionShape_eq dff dm nk B (L / p) p hnk hdiv hp, Option.some_bind]
  rw [show permute0231 [B, dm, L / p, p] = some [B, L / p, p, dm] from rfl,
    Option.some_bind]
  have h0 : 0 < B * dm := Nat.mul_pos hB hdm
  have hprod2 : ([B, L / p, p, dm] : Shape).prod = B * dm * L := by
    simp only [List.prod_cons, List.prod_nil, mul_one]
    rw [← mul_assoc (L / p) p dm, hmul]
    ring
  rw [reshapeInfer1_eq B dm _ L h0 hprod2, Option.some_bind]
  simp [sliceDim1, min_eq_right hseq]

lemma timesBlockPeriodShape_eq (seq dm dff nk p B : ℕ)
    (hseq : 1 ≤ seq) (hp : 1 ≤ p) (hnk : 1 ≤ nk) (hB : 1 ≤ B) (hdm : 1 ≤ dm) :
    timesBlockPeriodShape seq dm dff nk p [B, seq, dm] = some [B, seq, dm] := by
  have hp0 : 0 < p := hp
  by_cases hmod : seq % p = 0
  · have hdvd : p ∣ seq := Nat.dvd_of_mod_eq_zero hmod
    simp only [timesBlockPeriodShape, hmod, ne_eq, not_true_eq_false, if_false]
    exact timesBlockChain_eq seq B dm dff nk p seq hdm hB hnk hp hdvd hseq le_rfl
  · have hlt : seq < (seq / p + 1) * p := by
      have e : (seq / p + 1) * p = seq / p * p + p := by ring
      have h1 : seq / p * p + seq % p = seq := Nat.div_add_mod' seq p
      have h2 : seq % p < p := Nat.mod_lt _ hp0
      rw [e]
      omega
    simp only [timesBlockPeriodShape, hmod, ne_eq, not_false_eq_true, if_true]
    rw [show catDim1 [B, seq, dm] [B, (seq / p + 1) * p - seq, dm] =
        some [B, seq + ((seq / p + 1) * p - seq), dm] by simp [catDim1]]
    rw [show seq + ((seq / p + 1) * p - seq) = (seq / p + 1) * p by omega]
    exact timesBlockChain_eq seq B dm dff nk p ((seq / p + 1) * p) hdm hB hnk hp
      (Dvd.intro_left _ rfl) (by omega) (le_of_lt hlt)

lemma timesBlockShape_eq (seq dm dff nk B : ℕ) (ps : List ℕ)
    (hB : 1 ≤ B) (hdm : 1 ≤ dm) (hseq : 1 ≤ seq) (hnk : 1 ≤ nk)
    (hne : ps ≠ []) (hpos : ∀ p ∈ ps, 1 ≤ p) (hk : ps.length ≤ seq / 2 + 1) :
    timesBlockShape seq dm dff nk ps [B, seq, dm] = some [B, seq, dm] := by
  simp only [timesBlockShape]
  rw [if_pos hk]
  rw [optList_const _ _ _ (fun p hp =>
    timesBlockPeriodShape_eq seq dm dff nk p B hseq (hpos p hp) hnk hB hdm)]
  rw [Option.some_bind, stackLast_map_const _ _ hne]
  rw [Option.some_bind,
    show ([B, seq, dm] : Shape) ++ [ps.length] = [B, seq, dm, ps.length] from rfl,
    broadcastShape_self, Option.some_bind]
  rw [show sumLast [B, seq, dm, ps.length] = some [B, seq, dm] from rfl,
    Option.some_bind, broadcastShape_self]

lemma dataEmbeddingShape_eq (cin dm B seq : ℕ) (h1 : 1 ≤ seq) (h2 : seq ≤ 5000) :
    dataEmbeddingShape cin dm 5000 [B, seq, cin] = some [B, seq, dm] := by
  have hcond : cin = cin ∧ 1 ≤ seq ∧ 3 ≤ seq + 2 * 1 := ⟨rfl, h1, by omega⟩
  have htok : tokenEmbeddingShape cin dm [B, seq, cin] = some [B, seq, dm] := by
    simp only [tokenEmbeddingShape]
    rw [show permute021 [B, seq, cin] = some [B, cin, seq] from rfl, Option.some_bind]
    rw [show conv1dCircShape cin dm 3 1 [B, cin, seq] =
        some [B, dm, seq + 2 * 1 + 1 - 3] by simp [conv1dCircShape, hcond]]
    rw [show seq + 2 * 1 + 1 - 3 = seq by omega, Option.some_bind]
    rfl
  simp only [dataEmbeddingShape]
  rw [htok, Option.some_bind,
    show positionalEmbeddingShape dm 5000 [B, seq, cin] =
      some [1, min seq 5000, dm] from rfl,
    min_eq_left h2, Option.some_bind, broadcastShape_one_left]

lemma cropOrPadShape_le (seq b c t : ℕ) (h : t ≤ seq) :
    cropOrPadShape seq [b, c, t] = some ([b, c, seq], (seq : ℤ) - t) := by
  rcases lt_or_eq_of_le h with hlt | heq
  · simp only [cropOrPadShape]
    rw [if_pos hlt, show t + (seq - t) = seq by omega]
  · subst heq
    simp [cropOrPadShape]

lemma timesNetForwardShape_restore (cfg : TNConfig) (B L : ℕ)
    (periodsOf : ℕ → List ℕ)
    (hL : L ≤ cfg.sequence_lenth) (hseq : 1 ≤ cfg.sequence_lenth)
    (hmax : cfg.sequence_lenth ≤ 5000) (hB : 1 ≤ B) (hdm : 1 ≤ cfg.d_model)
    (hnk : 1 ≤ cfg.num_kernels) (hdepth : 1 ≤ cfg.depth)
    (hps : ∀ i, periodsOf i ≠ [] ∧ (∀ p ∈ periodsOf i, 1 ≤ p) ∧
      (periodsOf i).length ≤ cfg.sequence_lenth / 2 + 1) :
    timesNetForwardShape cfg none none periodsOf [B, cfg.c_in, L] =
      some ([B, cfg.flatten_out_channels, L], (cfg.sequence_lenth : ℤ) - L, false) := by
  have hlast : ([B, cfg.c_in, L] : Shape).getLast? = some L := rfl
  simp only [timesNetForwardShape, hlast, applyOpt, Option.some_bind]
  rw [cropOrPadShape_le _ _ _ _ hL, Option.some_bind]
  rw [show permute021 [B, cfg.c_in, cfg.sequence_lenth] =
    some [B, cfg.sequence_lenth, cfg.c_in] from rfl, Option.some_bind]
  rw [dataEmbeddingShape_eq cfg.c_in cfg.d_model B cfg.sequence_lenth hseq hmax,
    Option.some_bind]
  have hblock : ∀ i ∈ List.range cfg.depth,
      ((timesBlockShape cfg.sequence_lenth cfg.d_model cfg.d_ff cfg.num_kernels
          (periodsOf i) [B, cfg.sequence_lenth, cfg.d_model]).bind fun b =>
        layerNormShape cfg.d_model b) =
      some [B, cfg.sequence_lenth, cfg.d_model] := by
    intro i _
    obtain ⟨hne, hpos, hk⟩ := hps i
    rw [timesBlockShape_eq cfg.sequence_lenth cfg.d_model cfg.d_ff cfg.num_kernels B
      (periodsOf i) hB hdm hseq hnk hne hpos hk, Option.some_bind]
    simp [layerNormShape]
  rw [optList_const _ _ _ hblock, Option.some_bind]
  rw [getLast?_map_const _ _ (by simp [List.range_eq_nil]; omega), Option.some_bind]
  rw [show linearShape cfg.d_model cfg.flatten_out_channels
      [B, cfg.sequence_lenth, cfg.d_model] =
    some [B, cfg.sequence_lenth, cfg.flatten_out_channels] by simp [linearShape]]
  rw [Option.some_bind,
    show permute021 [B, cfg.sequence_lenth, cfg.flatten_out_channels] =
      some [B, cfg.flatten_out_channels, cfg.sequence_lenth] from rfl,
    Option.some_bind]
  rw [if_pos (by omega : (0 : ℤ) ≤ (cfg.sequence_lenth : ℤ) - L)]
  rw [show sliceDim2 L [B, cfg.flatten_out_channels, cfg.sequence_lenth] =
    some [B, cfg.flatten_out_channels, min cfg.sequence_lenth L] from rfl]
  rw [min_eq_right hL, Option.map_some']

lemma encLast_fold {τ : Type} (layer_norm : τ → τ) (x : τ) :
    ∀ (model : List (τ → τ)) (a : Option τ) (b : τ → τ), model.getLast? = some b →
      model.foldl (fun _ blk => some (layer_norm (blk x))) a = some (layer_norm (b x))
  | [], _, _, h => by simp at h
  | [c], a, b, h => by
    simp only [List.getLast?_singleton, Option.some.injEq] at h
    subst h
    rfl
  | c :: d :: t, a, b, h => by
    rw [List.getLast?_cons_cons] at h
    simpa only [List.foldl_cons] using
      encLast_fold layer_norm x (d :: t) (some (layer_norm (c x))) b h

lemma encLast_getLast {τ : Type} (model : List (τ → τ)) (layer_norm : τ → τ)
    (x : τ) (h : model ≠ []) :
    encLast model layer_norm x = some (layer_norm (model.getLast h x)) :=
  encLast_fold layer_norm x model none (model.getLast h)
    (List.getLast?_eq_getLast model h)

lemma cropOrPadVal_eq (seq L : ℕ) (x : ℕ → ℕ → ℕ → ℚ) (hL : L ≤ seq)
    (b c t : ℕ) (ht : t < seq) :
    cropOrPadVal seq L x b c t = if t < L then x b c t else 0 := by
  rcases lt_or_eq_of_le hL with h | h
  · simp only [cropOrPadVal, if_pos h]
  · subst h
    simp only [cropOrPadVal, lt_irrefl, if_false, if_pos ht]

/-! Claim theorems. -/

/-- C1 (evidence of a defect in the source): with depth = 1, top_k = 1, d_model = 8,
sequence_lenth = 16, flatten_out_channels = 4, no merger or subject layers,
and a "meg" input of shape [2, 3, 20], delta = 16 - 20 = -4 is negative, so
the interpolation branch is taken — but line 326 indexes the interpolation
result with [0], so the forward output has shape [4, 20], not the [2, 4, 20]
the spec claims. -/
theorem timesNet_c1_interpolation_branch_drops_batch_dim :
    timesNetForwardShape
        { c_in := 3, sequence_lenth := 16, num_kernels := 6, top_k := 1,
          d_model := 8, d_ff := 32, flatten_out_channels := 4, depth := 1 }
        none none (fun _ => [8]) [2, 3, 20] =
      some ([4, 20], -4, true) ∧
    ([4, 20] : Shape) ≠ [2, 4, 20] := by
  exact ⟨by decide, by decide⟩

/-- C2: TimesBlock.forward maps an input of shape [B, T, N] with T equal to
the block's configured sequence length back to shape [B, T, N], for every
list of discovered periods (positive, at most T/2+1 many — what
FFT_for_Period can return), whether or not the periods divide T evenly. -/
theorem timesBlock_c2_shape_invariant (B T N d_ff nk : ℕ) (ps : List ℕ)
    (hB : 1 ≤ B) (hN : 1 ≤ N) (hT : 1 ≤ T) (hnk : 1 ≤ nk) (hne : ps ≠ [])
    (hpos : ∀ p ∈ ps, 1 ≤ p) (hk : ps.length ≤ T / 2 + 1) :
    timesBlockShape T N d_ff nk ps [B, T, N] = some [B, T, N] :=
  timesBlockShape_eq T N d_ff nk B ps hB hN hT hnk hne hpos hk

/-- Witness for C2 at B = 2, T = 16, N = 3, d_ff = 5, num_kernels = 2 and
periods [5, 16] (5 does not divide 16, 16 does). -/
theorem timesBlock_c2_shape_invariant_witness :
    (1 ≤ 2 ∧ 1 ≤ 3 ∧ 1 ≤ 16 ∧ 1 ≤ 2 ∧ ([5, 16] : List ℕ) ≠ [] ∧
      (∀ p ∈ ([5, 16] : List ℕ), 1 ≤ p) ∧ ([5, 16] : List ℕ).length ≤ 16 / 2 + 1) ∧
    timesBlockShape 16 3 5 2 [5, 16] [2, 16, 3] = some [2, 16, 3] :=
  ⟨⟨by decide, by decide, by decide, by decide, by decide, by decide, by decide⟩,
    timesBlock_c2_shape_invariant 2 16 3 5 2 [5, 16] (by decide) (by decide)
      (by decide) (by decide) (by decide) (by decide) (by decide)⟩

/-- C3: the depth loop of TimesNet.forward overwrites enc_out in every
iteration, applying each block to the same embedded input, so the whole
forward pass computes exactly what a depth-1 model whose single block is the
last block of the stack computes. -/
theorem timesNet_c3_only_last_block_matters {τ : Type}
    (merger : Option (τ → BatchRec → τ)) (subject_layers : Option (τ → ℕ → τ))
    (crop_or_pad permuteIn enc_embedding : τ → τ)
    (blk : τ → τ) (rest : List (τ → τ))
    (layer_norm act dropout projection permuteOut restore : τ → τ)
    (inputs : InputsRec τ) (batch : BatchRec) :
    timesNetForwardCtl merger subject_layers crop_or_pad permuteIn enc_embedding
        (blk :: rest) layer_norm act dropout projection permuteOut restore
        inputs batch =
      timesNetForwardCtl merger subject_layers crop_or_pad permuteIn enc_embedding
        [(blk :: rest).getLast (List.cons_ne_nil blk rest)] layer_norm act dropout
        projection permuteOut restore inputs batch := by
  simp only [timesNetForwardCtl]
  rw [encLast_getLast (blk :: rest) layer_norm _ (List.cons_ne_nil blk rest),
    encLast_getLast [(blk :: rest).getLast (List.cons_ne_nil blk rest)] layer_norm _
      (List.cons_ne_nil _ [])]
  rfl

/-- C5: for an input whose actual time length L is at most the configured
sequence length, crop_or_pad right-pads the time axis with zeros up to the
configured length (value conjunct), records a nonnegative delta, and the full
forward pass (no merger or subject layers; any positive discovered periods)
returns an output whose time axis has length exactly L via the slicing
branch. -/
theorem timesNet_c5_pad_then_restore_length (cfg : TNConfig) (B L : ℕ)
    (periodsOf : ℕ → List ℕ) (x : ℕ → ℕ → ℕ → ℚ)
    (hL : L ≤ cfg.sequence_lenth) (hseq : 1 ≤ cfg.sequence_lenth)
    (hmax : cfg.sequence_lenth ≤ 5000) (hB : 1 ≤ B) (hdm : 1 ≤ cfg.d_model)
    (hnk : 1 ≤ cfg.num_kernels) (hdepth : 1 ≤ cfg.depth)
    (hps : ∀ i, periodsOf i ≠ [] ∧ (∀ p ∈ periodsOf i, 1 ≤ p) ∧
      (periodsOf i).length ≤ cfg.sequence_lenth / 2 + 1) :
    timesNetForwardShape cfg none none periodsOf [B, cfg.c_in, L] =
      some ([B, cfg.flatten_out_channels, L], (cfg.sequence_lenth : ℤ) - L, false) ∧
    (0 : ℤ) ≤ (cfg.sequence_lenth : ℤ) - L ∧
    ∀ b c t, t < cfg.sequence_lenth →
      cropOrPadVal cfg.sequence_lenth L x b c t = if t < L then x b c t else 0 := by
  refine ⟨timesNetForwardShape_restore cfg B L periodsOf hL hseq hmax hB hdm hnk
    hdepth hps, by omega, fun b c t ht => cropOrPadVal_eq _ _ x hL b c t ht⟩

/-- Witness for C5 at sequence length 4, input length 3, one block with
period list [3]. -/
theorem timesNet_c5_pad_then_restore_length_witness :
    (3 ≤ 4 ∧ 1 ≤ 4 ∧ 4 ≤ 5000 ∧ 1 ≤ 1 ∧ 1 ≤ 2 ∧ 1 ≤ 1 ∧ 1 ≤ 1) ∧
    (timesNetForwardShape
        { c_in := 1, sequence_lenth := 4, num_kernels := 1, top_k := 1,
          d_model := 2, d_ff := 2, flatten_out_channels := 3, depth := 1 }
        none none (fun _ => [3]) [1, 1, 3] =
      some ([1, 3, 3], (4 : ℤ) - 3, false) ∧
    (0 : ℤ) ≤ (4 : ℤ) - 3 ∧
    ∀ b c t, t < 4 →
      cropOrPadVal 4 3 (fun _ _ _ => 1) b c t = if t < 3 then (fun _ _ _ => (1 : ℚ)) b c t else 0) :=
  ⟨⟨by decide, by decide, by decide, by decide, by decide, by decide, by decide⟩,
    timesNet_c5_pad_then_restore_length
      { c_in := 1, sequence_lenth := 4, num_kernels := 1, top_k := 1,
        d_model := 2, d_ff := 2, flatten_out_channels := 3, depth := 1 }
      1 3 (fun _ => [3]) (fun _ _ _ => 1) (by decide) (by decide) (by decide)
      (by decide) (by decide) (by decide) (by decide)
      (fun _ => ⟨by simp, by simp, by simp⟩)⟩

/-- C6: Inception_Block_V1.forward with num_kernels parallel branches, branch
i a Conv2d of kernel size 2*i+1 and padding i: every branch preserves the
spatial dimensions exactly, the block output has shape [B, C_out, H, W], and
at every position the output value is the mean (sum divided by num_kernels)
of the branch values. -/
theorem inception_c6_branches_and_mean (cin cout nk b h w : ℕ)
    (hnk : 1 ≤ nk) (hh : 1 ≤ h) (hw : 1 ≤ w) :
    inceptionShape cin cout nk [b, cin, h, w] = some [b, cout, h, w] ∧
    (∀ i < nk, conv2dShape cin cout (2 * i + 1) i [b, cin, h, w] =
      some [b, cout, h, w]) ∧
    ∀ (wts : ℕ → ℕ → ℕ → ℕ → ℕ → ℚ) (biases : ℕ → ℕ → ℚ)
      (x : ℕ → ℕ → ℕ → ℕ → ℚ) (bb o i j : ℕ),
      inceptionVal cin h w nk wts biases x bb o i j =
        (∑ idx ∈ Finset.range nk,
          conv2dVal cin h w (2 * idx + 1) idx (wts idx) (biases idx) x bb o i j) /
          (nk : ℚ) := by
  refine ⟨inceptionShape_eq cin cout nk b h w hnk hh hw,
    fun i _ => conv2dShape_eq cin cout i b h w hh hw, ?_⟩
  intro wts biases x bb o i j
  simp only [inceptionVal, inceptionBranches, List.map_map, List.length_map,
    List.length_range]
  rw [sum_map_range]
  simp [Function.comp]

/-- Witness for C6 at cin = 1, cout = 2, num_kernels = 2, shape [1, 1, 3, 2]. -/
theorem inception_c6_branches_and_mean_witness :
    (1 ≤ 2 ∧ 1 ≤ 3 ∧ 1 ≤ 2) ∧
    (inceptionShape 1 2 2 [1, 1, 3, 2] = some [1, 2, 3, 2] ∧
    (∀ i < 2, conv2dShape 1 2 (2 * i + 1) i [1, 1, 3, 2] = some [1, 2, 3, 2]) ∧
    ∀ (wts : ℕ → ℕ → ℕ → ℕ → ℕ → ℚ) (biases : ℕ → ℕ → ℚ)
      (x : ℕ → ℕ → ℕ → ℕ → ℚ) (bb o i j : ℕ),
      inceptionVal 1 3 2 2 wts biases x bb o i j =
        (∑ idx ∈ Finset.range 2,
          conv2dVal 1 3 2 (2 * idx + 1) idx (wts idx) (biases idx) x bb o i j) /
          (2 : ℚ)) :=
  ⟨⟨by decide, by decide, by decide⟩,
    inception_c6_branches_and_mean 1 2 2 1 3 2 (by decide) (by decide) (by decide)⟩

/-- C9: DataEmbedding.forward with x_mark = None returns
dropout(value_embedding(x) + position_embedding(x)) — the temporal term is
omitted from the sum — and this equals what passing a zero-contribution
temporal term with any x_mark would produce. -/
theorem dataEmbedding_c9_none_omits_temporal {τ μ : Type} [AddZeroClass τ]
    (value_embedding position_embedding : τ → τ) (temporal_embedding : μ → τ)
    (dropout : τ → τ) (x : τ) :
    dataEmbeddingForward value_embedding position_embedding temporal_embedding
        dropout x none =
      dropout (value_embedding x + position_embedding x) ∧
    ∀ m : μ,
      dataEmbeddingForward value_embedding position_embedding (fun _ => 0)
          dropout x (some m) =
        dataEmbeddingForward value_embedding position_embedding
          temporal_embedding dropout x none := by
  refine ⟨rfl, fun m => ?_⟩
  simp [dataEmbeddingForward, add_zero]

/-- C10: with a channel merger configured (and optionally subject layers),
TimesNet.forward leaves the caller's inputs mapping with its "meg" entry
rebound to the merged and/or subject-adapted tensor (the other entries
untouched); and TimesNet.__init__ leaves the caller's in_channels mapping
with its "meg" entry overwritten by merger_channels (merger case) or the
configured subject-layer width (subject-layers case). -/
theorem timesNet_c10_mutates_caller_state {τ : Type}
    (m : τ → BatchRec → τ) (subject_layers : Option (τ → ℕ → τ))
    (crop_or_pad permuteIn enc_embedding : τ → τ)
    (blk : τ → τ) (rest : List (τ → τ))
    (layer_norm act dropout projection permuteOut restore : τ → τ)
    (inputs : InputsRec τ) (batch : BatchRec) :
    (timesNetForwardCtl (some m) subject_layers crop_or_pad permuteIn
        enc_embedding (blk :: rest) layer_norm act dropout projection permuteOut
        restore inputs batch).map Prod.snd =
      some { meg := megAfterPre (some m) subject_layers batch inputs.meg,
             extra := inputs.extra } ∧
    (∀ merger_channels sdim hidden_meg in_channels,
      (timesNetInitChannels true merger_channels false sdim hidden_meg
          in_channels).map (fun ch => ch megKey) = some merger_channels) ∧
    (∀ hidden_meg in_channels,
      (timesNetInitChannels false 0 true hiddenKey hidden_meg in_channels).map
        (fun ch => ch megKey) = some hidden_meg) := by
  refine ⟨?_, ?_, ?_⟩
  · cases subject_layers <;>
      simp [timesNetForwardCtl, megAfterPre,
        encLast_getLast (blk :: rest) layer_norm _ (List.cons_ne_nil blk rest)]
  · intro merger_channels sdim hidden_meg in_channels
    simp [timesNetInitChannels, Function.update_same]
  · intro hidden_meg in_channels
    simp [timesNetInitChannels, hiddenKey, Function.update_same]

lemma foldl_max_mem {α : Type} [LinearOrder α] :
    ∀ (l : List (ℕ × α)) (a : ℕ × α),
      l.foldl (fun best q => if best.2 < q.2 then q else best) a ∈ a :: l
  | [], a => List.mem_singleton.mpr rfl
  | b :: t, a => by
    simp only [List.foldl_cons]
    by_cases hc : a.2 < b.2
    · rw [if_pos hc]
      rcases List.mem_cons.mp (foldl_max_mem t b) with h1 | h1
      · rw [h1]
        exact List.mem_cons_of_mem a (List.mem_cons_self b t)
      · exact List.mem_cons_of_mem a (List.mem_cons_of_mem b h1)
    · rw [if_neg hc]
      rcases List.mem_cons.mp (foldl_max_mem t a) with h1 | h1
      · rw [h1]
        exact List.mem_cons_self a (b :: t)
      · exact List.mem_cons_of_mem a (List.mem_cons_of_mem b h1)

lemma filter_ne_length {α : Type} (i : ℕ) :
    ∀ ps : List (ℕ × α), (ps.map Prod.fst).Nodup → i ∈ ps.map Prod.fst →
      (ps.filter (fun r => r.1 ≠ i)).length + 1 = ps.length
  | [], _, hmem => by simp at hmem
  | p :: t, hnd, hmem => by
    rw [List.map_cons, List.nodup_cons] at hnd
    by_cases hpi : p.1 = i
    · have hnot : ∀ r ∈ t, r.1 ≠ i := by
        intro r hr hri
        apply hnd.1
        rw [hpi, ← hri]
        exact List.mem_map_of_mem Prod.fst hr
      have hall : t.filter (fun r => r.1 ≠ i) = t :=
        List.filter_eq_self.mpr (fun r hr => by simpa using hnot r hr)
      have hdec : (decide (p.1 ≠ i)) = false := by simp [hpi]
      rw [List.filter_cons, hdec]
      simp only [Bool.false_eq_true, if_false, hall, List.length_cons]
    · have hmem' : i ∈ t.map Prod.fst := by
        rw [List.map_cons] at hmem
        rcases List.mem_cons.mp hmem with h1 | h1
        · exact absurd h1.symm hpi
        · exact h1
      have ih := filter_ne_length i t hnd.2 hmem'
      have hdec : (decide (p.1 ≠ i)) = true := by simp [hpi]
      rw [List.filter_cons, hdec]
      simp only [if_true, List.length_cons]
      omega

lemma topkGo_length {α : Type} [LinearOrder α] :
    ∀ (k : ℕ) (ps : List (ℕ × α)), (ps.map Prod.fst).Nodup → k ≤ ps.length →
      (topkGo k ps).length = k
  | 0, _, _, _ => rfl
  | k + 1, ps, hnd, hk => by
    cases ps with
    | nil => simp at hk
    | cons p t =>
      have hmem : t.foldl (fun best q => if best.2 < q.2 then q else best) p ∈
          p :: t := foldl_max_mem t p
      have hfst : (t.foldl (fun best q => if best.2 < q.2 then q else best) p).1 ∈
          (p :: t).map Prod.fst := List.mem_map_of_mem Prod.fst hmem
      have hflen := filter_ne_length _ (p :: t) hnd hfst
      simp only [List.length_cons] at hflen hk
      have hnd' : (((p :: t).filter
          (fun r => r.1 ≠ (t.foldl (fun best q => if best.2 < q.2 then q else best) p).1)).map
            Prod.fst).Nodup :=
        hnd.sublist (List.Sublist.map Prod.fst (List.filter_sublist _))
      have ih := topkGo_length k _ hnd' (by omega)
      simp only [topkGo, pickMax, List.length_cons, ih]

lemma topkIdx_length {α : Type} [LinearOrder α] (v : List α) (k : ℕ)
    (hk : k ≤ v.length) :
    topkIdx v k = some (topkGo k v.enum) ∧ (topkGo k v.enum).length = k := by
  constructor
  · simp [topkIdx, hk]
  · apply topkGo_length
    · rw [List.enum_map_fst]
      exact List.nodup_range _
    · rw [List.enum_length]
      exact hk

/-- C4: FFT_for_Period computes exactly what the spec describes: magnitudes
of the rfft averaged over batch and channels into one amplitude per frequency
bin, DC bin zeroed, deterministic top-k selection of the largest amplitudes,
periods T // index, and the [B, k] channel-averaged magnitudes at the
selected bins as raw pre-softmax weights. -/
theorem fft_c4_matches_spec (B T C : ℕ) (x : ℕ → ℕ → ℕ → ℝ) (k : ℕ)
    (_hB : 1 ≤ B) (_hC : 1 ≤ C) (_hk : 1 ≤ k) :
    FFT_for_Period B T C x k = FFT_for_Period_spec B T C x k := by
  have hpt : ∀ f : ℕ,
      (if f = 0 then (0 : ℝ)
        else (∑ c ∈ Finset.range C, (∑ b ∈ Finset.range B, xfAbs T x b f c) / B) / C) =
      (if f = 0 then (0 : ℝ)
        else (∑ b ∈ Finset.range B, ∑ c ∈ Finset.range C, xfAbs T x b f c) / (B * C)) := by
    intro f
    by_cases h : f = 0
    · simp [h]
    · simp only [h, if_false]
      rw [← Finset.sum_div, div_div, Finset.sum_comm]
  have hlist : frequency_list B T C x =
      (List.range (T / 2 + 1)).map (fun f =>
        if f = 0 then (0 : ℝ)
        else (∑ b ∈ Finset.range B, ∑ c ∈ Finset.range C, xfAbs T x b f c) / (B * C)) := by
    simp only [frequency_list]
    exact List.map_congr_left (fun f _ => hpt f)
  simp only [FFT_for_Period, FFT_for_Period_spec]
  rw [hlist]

/-- Witness for C4 at B = C = k = 1, T = 4, on the zero signal. -/
theorem fft_c4_matches_spec_witness :
    (1 ≤ 1 ∧ 1 ≤ 1 ∧ 1 ≤ 1) ∧
    FFT_for_Period 1 4 1 (fun _ _ _ => (0 : ℝ)) 1 =
      FFT_for_Period_spec 1 4 1 (fun _ _ _ => (0 : ℝ)) 1 :=
  ⟨⟨le_refl 1, le_refl 1, le_refl 1⟩,
    fft_c4_matches_spec 1 4 1 (fun _ _ _ => 0) 1 (le_refl 1) (le_refl 1) (le_refl 1)⟩

/-- C7: for 1 ≤ k ≤ number of rfft bins (T/2 + 1), FFT_for_Period returns
normally with exactly k periods, per standard top-k semantics — even when k
exceeds the number of distinct nonzero-amplitude bins, in which case
zero-amplitude bins are simply selected. -/
theorem fft_c7_returns_k_periods (B T C : ℕ) (x : ℕ → ℕ → ℕ → ℝ) (k : ℕ)
    (_h1 : 1 ≤ k) (h2 : k ≤ T / 2 + 1) :
    ∃ periods weights, FFT_for_Period B T C x k = some (periods, weights) ∧
      periods.length = k := by
  have hlen : (frequency_list B T C x).length = T / 2 + 1 := by
    simp [frequency_list]
  obtain ⟨hidx, hlen2⟩ := topkIdx_length (frequency_list B T C x) k (by omega)
  refine ⟨(topkGo k (frequency_list B T C x).enum).map (fun f => T / f),
    (List.range B).map (fun b =>
      (topkGo k (frequency_list B T C x).enum).map
        (fun f => (∑ c ∈ Finset.range C, xfAbs T x b f c) / C)), ?_, ?_⟩
  · simp only [FFT_for_Period, hidx]
  · simp [hlen2]

/-- Witness for C7 at B = 1, T = 4, C = 1, k = 2 on the zero signal — all
nonzero-frequency amplitudes are zero, so a zero-amplitude bin is selected,
yet the call still returns 2 periods. -/
theorem fft_c7_returns_k_periods_witness :
    (1 ≤ 2 ∧ 2 ≤ 4 / 2 + 1) ∧
    (∃ periods weights,
      FFT_for_Period 1 4 1 (fun _ _ _ => (0 : ℝ)) 2 = some (periods, weights) ∧
        periods.length = 2) :=
  ⟨⟨by decide, by decide⟩,
    fft_c7_returns_k_periods 1 4 1 (fun _ _ _ => 0) 2 (by decide) (by decide)⟩

/-- C8 (counterexample): secondly granularity "s" is finer than hourly, yet
TemporalEmbedding built with freq = "s" creates no minute table, so the
minute field contributes nothing: on zero tables except a constant-1 minute
table, the forward output is 0, not the 1 that a contributing minute
embedding would give. -/
theorem temporal_c8_counterexample :
    finerThanHourly freqS = true ∧
    temporalEmbeddingForward
        (temporalEmbeddingInit freqS (fun _ => (1 : ℚ)) (fun _ => 0) (fun _ => 0)
          (fun _ => 0) (fun _ => 0)) (fun _ => 0) ≠
      (fun _ => (0 : ℚ)) 3 + (fun _ => (0 : ℚ)) 2 + (fun _ => (0 : ℚ)) 1 +
        (fun _ => (0 : ℚ)) 0 + (fun _ => (1 : ℚ)) 4 := by
  refine ⟨by decide, ?_⟩
  simp [temporalEmbeddingForward, temporalEmbeddingInit, freqS]

/-- C8 (amended): a minute-field embedding is included exactly when the
configured frequency is the minutely key 't' (not for every finer-than-hourly
granularity: secondly 's' gets none): the minute table exists iff freq = 't',
and the forward output is the sum of the four always-present field embeddings
plus the minute embedding of column 4 for freq = 't', plus zero otherwise. -/
theorem temporal_c8_minute_embed_iff_freq_t {τ : Type} [Add τ] [Zero τ]
    (freq : String) (minuteT hourT weekdayT dayT monthT : ℕ → τ) (row : ℕ → ℕ) :
    (temporalEmbeddingInit freq minuteT hourT weekdayT dayT monthT).minute_embed.isSome =
      decide (freq = freqT) ∧
    temporalEmbeddingForward
        (temporalEmbeddingInit freq minuteT hourT weekdayT dayT monthT) row =
      hourT (row 3) + weekdayT (row 2) + dayT (row 1) + monthT (row 0) +
        (if freq = freqT then minuteT (row 4) else 0) := by
  by_cases h : freq = "t" <;>
    simp [temporalEmbeddingInit, temporalEmbeddingForward, freqT, h]

end Timesnet
